import Mathlib

set_option maxHeartbeats 1000000

/-!
Verification of the job-scheduler repository's change-detection and
orchestration pipeline.  The Go source is shallowly embedded: the data
model (`Job`, `JobCollection`, `DiffResult`) mirrors
`internal/core/domain`, the diff engine mirrors
`compareScrapeResults`, the orchestrator mirrors `processSingleURL` and
`ScrapeAndNotify` in `careerscraper_service.go` with the three ports
(scraper, repository, notifier) passed in as oracles and the calls the
orchestrator makes recorded in an event trace, and the in-memory
repository mirrors `memory_repository.go` with the Go map modelled as a
function from keys to optional collections.
-/

/-- Mirrors `domain.Job`: one job listing.  The two `time.Time` fields
are modelled as `Nat`; the diff engine never inspects them. -/
structure Job where
  id : String
  title : String
  description : String
  location : String
  department : String
  url : String
  postedDate : Nat
  scrapedAt : Nat
deriving DecidableEq, Repr

/-- Mirrors `domain.JobCollection`: one fetch result for one source. -/
structure JobCollection where
  companyName : String
  sourceURL : String
  scrapedAt : Nat
  jobs : List Job
  rawContent : String
deriving DecidableEq, Repr

/-- Mirrors `domain.DiffResult`. -/
structure DiffResult where
  companyName : String
  sourceURL : String
  newJobs : List Job
  removedJobs : List Job
  updatedJobs : List Job
deriving DecidableEq, Repr

/-- The Go zero value `domain.JobCollection\x7b\x7d`, returned by the memory
repository when a URL has no stored snapshot. -/
def emptyJobCollection : JobCollection :=
  { companyName := "", sourceURL := "", scrapedAt := 0, jobs := [], rawContent := "" }

/-- The content test of `compareScrapeResults`:
`job.Title != prevJob.Title || job.Description != prevJob.Description ||
job.Location != prevJob.Location || job.Department != prevJob.Department`. -/
def jobChanged (job prevJob : Job) : Bool :=
  job.title != prevJob.title || job.description != prevJob.description ||
  job.location != prevJob.location || job.department != prevJob.department

/-- Models building the Go map `id -> Job` over a slice and then looking
up key `k`: later slice entries overwrite earlier ones with the same id,
so the fold keeps the last matching job. -/
def buildJobMap (jobs : List Job) (k : String) : Option Job :=
  jobs.foldl (fun acc j => if j.id = k then some j else acc) none

/-- Mirrors `CareerScraperService.compareScrapeResults`.  The Go code
walks `current.Jobs` once, appending to `NewJobs` when the id is absent
from the previous map and to `UpdatedJobs` when present with a tracked
field changed, then walks `previous.Jobs` appending to `RemovedJobs`
the jobs whose id is absent from the current map; each list therefore
is the corresponding filter of its source slice in slice order. -/
def compareScrapeResults (previous current : JobCollection) : DiffResult :=
  { companyName := current.companyName
    sourceURL := current.sourceURL
    newJobs := current.jobs.filter fun j => (buildJobMap previous.jobs j.id).isNone
    removedJobs := previous.jobs.filter fun p => (buildJobMap current.jobs p.id).isNone
    updatedJobs := current.jobs.filter fun j =>
      match buildJobMap previous.jobs j.id with
      | none => false
      | some p => jobChanged j p }

theorem foldl_jobmap_eq_none (k : String) :
    ∀ (jobs : List Job) (acc : Option Job),
      jobs.foldl (fun acc j => if j.id = k then some j else acc) acc = none ↔
        acc = none ∧ ∀ j ∈ jobs, j.id ≠ k := by
  intro jobs
  induction jobs with
  | nil => intro acc; simp
  | cons x rest ih =>
    intro acc
    rw [List.foldl_cons, ih]
    by_cases hx : x.id = k
    · simp [hx]
    · simp only [if_neg hx, List.mem_cons]
      constructor
      · rintro ⟨h1, h2⟩
        exact ⟨h1, by rintro j (rfl | hj); exact hx; exact h2 j hj⟩
      · rintro ⟨h1, h2⟩
        exact ⟨h1, fun j hj => h2 j (Or.inr hj)⟩

theorem buildJobMap_eq_none (jobs : List Job) (k : String) :
    buildJobMap jobs k = none ↔ ∀ j ∈ jobs, j.id ≠ k := by
  rw [buildJobMap, foldl_jobmap_eq_none]
  simp

theorem foldl_jobmap_skip (k : String) (jobs : List Job) (acc : Option Job)
    (h : ∀ j ∈ jobs, j.id ≠ k) :
    jobs.foldl (fun acc j => if j.id = k then some j else acc) acc = acc := by
  induction jobs generalizing acc with
  | nil => rfl
  | cons x rest ih =>
    rw [List.foldl_cons, if_neg (h x (List.mem_cons_self x rest))]
    exact ih acc fun j hj => h j (List.mem_cons_of_mem x hj)

/-- With pairwise-distinct ids, the map lookup of a member's id returns
that member. -/
theorem buildJobMap_self {jobs : List Job} (hnd : (jobs.map Job.id).Nodup)
    {j : Job} (hj : j ∈ jobs) : buildJobMap jobs j.id = some j := by
  induction jobs with
  | nil => cases hj
  | cons x rest ih =>
    rw [List.map_cons, List.nodup_cons] at hnd
    rcases List.mem_cons.mp hj with rfl | hj'
    · rw [buildJobMap, List.foldl_cons, if_pos rfl]
      refine foldl_jobmap_skip _ _ _ fun p hp hpk => ?_
      exact hnd.1 (hpk ▸ List.mem_map_of_mem Job.id hp)
    · have hx : x.id ≠ j.id := fun hEq =>
        hnd.1 (hEq ▸ List.mem_map_of_mem Job.id hj')
      rw [buildJobMap, List.foldl_cons, if_neg hx]
      exact ih hnd.2 hj'

theorem foldl_jobmap_some (k : String) :
    ∀ (jobs : List Job) (acc : Option Job) (j : Job),
      jobs.foldl (fun acc j => if j.id = k then some j else acc) acc = some j →
        (j ∈ jobs ∧ j.id = k) ∨ acc = some j := by
  intro jobs
  induction jobs with
  | nil => intro acc j h; exact Or.inr h
  | cons x rest ih =>
    intro acc j h
    rw [List.foldl_cons] at h
    rcases ih _ j h with ⟨hm, hk⟩ | hacc
    · exact Or.inl ⟨List.mem_cons_of_mem x hm, hk⟩
    · by_cases hx : x.id = k
      · rw [if_pos hx] at hacc
        have hxj : x = j := Option.some_inj.mp hacc
        subst hxj
        exact Or.inl ⟨List.mem_cons_self x rest, hx⟩
      · rw [if_neg hx] at hacc
        exact Or.inr hacc

theorem buildJobMap_some_mem {jobs : List Job} {k : String} {j : Job}
    (h : buildJobMap jobs k = some j) : j ∈ jobs ∧ j.id = k := by
  rcases foldl_jobmap_some k jobs none j h with h' | h'
  · exact h'
  · cases h'

/-- One entry of the orchestrator's interaction trace: a call the
service makes on one of its three ports. -/
inductive Event where
  | scrape (url : String)
  | getLatest (url : String)
  | notify (diff : DiffResult)
  | save (collection : JobCollection)
deriving DecidableEq, Repr

/-- The three ports of `CareerScraperService` (`ports.Scraper`,
`ports.JobRepository`, `ports.Notifier`) as oracles over an abstract
repository state `σ`.  Errors are modelled as `Except` with a `String`
message.  The notifier's return value is recorded but — exactly as in
the Go code, which only logs it — never influences control flow. -/
structure Ports (σ : Type) where
  scrape : String → Except String JobCollection
  getLatest : σ → String → Except String JobCollection
  save : σ → JobCollection → Except String σ
  notify : DiffResult → Except String Unit

/-- Mirrors `CareerScraperService.processSingleURL`, returning the Go
function's error result together with the repository state after the
call and the trace of port calls made.  Control flow from the source:
scrape failure returns a wrapped error at once; a `GetLatestJobCollection`
error leads to a save with no diff and no notification; otherwise the
diff is computed, the notifier is called when any diff list is
non-empty (a notifier error is swallowed), and the current collection
is saved unconditionally. -/
def processSingleURL {σ : Type} (P : Ports σ) (st : σ) (url : String) :
    Except String Unit × σ × List Event :=
  match P.scrape url with
  | .error e => (.error ("failed to scrape URL " ++ url ++ ": " ++ e), st, [.scrape url])
  | .ok currentJobs =>
    match P.getLatest st url with
    | .error _ =>
      match P.save st currentJobs with
      | .error e => (.error e, st, [.scrape url, .getLatest url, .save currentJobs])
      | .ok st' => (.ok (), st', [.scrape url, .getLatest url, .save currentJobs])
    | .ok previousJobs =>
      let diff := compareScrapeResults previousJobs currentJobs
      let notifyTrace : List Event :=
        if 0 < diff.newJobs.length ∨ 0 < diff.removedJobs.length ∨
            0 < diff.updatedJobs.length
        then [.notify diff] else []
      match P.save st currentJobs with
      | .error e =>
        (.error ("failed to save job collection: " ++ e), st,
          [.scrape url, .getLatest url] ++ notifyTrace ++ [.save currentJobs])
      | .ok st' =>
        (.ok (), st',
          [.scrape url, .getLatest url] ++ notifyTrace ++ [.save currentJobs])

/-- The loop body of `ScrapeAndNotify`: process each URL in order,
threading the repository state; a failed URL is logged and skipped
(`continue`), so its error never interrupts the loop. -/
def runUrls {σ : Type} (P : Ports σ) (st : σ) : List String → σ × List Event
  | [] => (st, [])
  | url :: rest =>
    let r := processSingleURL P st url
    let k := runUrls P r.2.1 rest
    (k.1, r.2.2 ++ k.2)

/-- Mirrors `CareerScraperService.ScrapeAndNotify` (the `RunOnce`
entry point): loop over the configured URLs and return `nil`. -/
def scrapeAndNotify {σ : Type} (P : Ports σ) (st : σ) (urls : List String) :
    Except String Unit × σ × List Event :=
  let r := runUrls P st urls
  (.ok (), r.1, r.2)

/-- State of `MemoryRepository`: the Go map
`collections map[string]domain.JobCollection` as a partial function. -/
def MemState : Type := String → Option JobCollection

/-- The map write `r.collections[collection.SourceURL] = collection`. -/
def memInsert (s : MemState) (c : JobCollection) : MemState :=
  fun k => if k = c.sourceURL then some c else s k

/-- Mirrors `MemoryRepository.SaveJobCollection`: unconditional
overwrite keyed by `SourceURL`, always returning `nil`. -/
def saveJobCollection (s : MemState) (c : JobCollection) : Except String MemState :=
  .ok (memInsert s c)

/-- Mirrors `MemoryRepository.GetLatestJobCollection`: the zero-value
collection with a `nil` error when the key is absent, otherwise the
stored collection. -/
def getLatestJobCollection (s : MemState) (url : String) : Except String JobCollection :=
  match s url with
  | some c => .ok c
  | none => .ok emptyJobCollection

/-- The empty repository produced by `NewMemoryRepository`. -/
def emptyMemState : MemState := fun _ => none

/-- The service as wired in `main.go`: an arbitrary scraper and
notifier composed with the in-memory repository. -/
def mkMemPorts (scrape : String → Except String JobCollection)
    (notify : DiffResult → Except String Unit) : Ports MemState :=
  { scrape := scrape, getLatest := getLatestJobCollection,
    save := saveJobCollection, notify := notify }

/-- Whether a run of `processSingleURL` enters the branch that handles
an error from `GetLatestJobCollection` (the "first time or error: save
and do not notify" branch): it is entered exactly when the scrape
succeeds and the repository lookup errors. -/
def getErrBranchTaken {σ : Type} (P : Ports σ) (st : σ) (url : String) : Bool :=
  match P.scrape url with
  | .error _ => false
  | .ok _ =>
    match P.getLatest st url with
    | .error _ => true
    | .ok _ => false

/-- The memory repository's lookup always succeeds, returning the
stored collection or the zero value. -/
theorem getLatest_always_ok (s : MemState) (url : String) :
    getLatestJobCollection s url = .ok ((s url).getD emptyJobCollection) := by
  cases h : s url <;> simp [getLatestJobCollection, h]

/-- The trace of a single-URL pass always records the scrape call,
whatever the ports return. -/
theorem scrape_mem_trace {σ : Type} (P : Ports σ) (st : σ) (url : String) :
    Event.scrape url ∈ (processSingleURL P st url).2.2 := by
  unfold processSingleURL
  cases P.scrape url with
  | error e => simp
  | ok c =>
    cases P.getLatest st url with
    | error e => cases hsv : P.save st c <;> simp [hsv]
    | ok prev => cases hsv : P.save st c <;> simp [hsv]

/-- Concrete job used in witnesses and counterexamples. -/
def jobW : Job :=
  { id := "j1", title := "Engineer", description := "Builds things",
    location := "Remote", department := "Eng",
    url := "https://acme.example/j1", postedDate := 0, scrapedAt := 0 }

/-- A concrete one-job snapshot. -/
def collW : JobCollection :=
  { companyName := "Acme", sourceURL := "https://acme.example/careers",
    scrapedAt := 1, jobs := [jobW], rawContent := "" }

/-- A concrete empty prior snapshot for the same source. -/
def collPrevW : JobCollection :=
  { companyName := "Acme", sourceURL := "https://acme.example/careers",
    scrapedAt := 0, jobs := [], rawContent := "" }

/-- Claim C7: when no snapshot has been saved for a URL, the memory
repository's `GetLatestJobCollection` returns the zero-value empty
collection together with a nil error, not an error. -/
theorem c7_get_missing_is_empty_ok (s : MemState) (url : String)
    (h : s url = none) :
    getLatestJobCollection s url = .ok emptyJobCollection := by
  simp [getLatestJobCollection, h]

theorem c7_get_missing_is_empty_ok_witness :
    emptyMemState "https://acme.example/careers" = none ∧
    getLatestJobCollection emptyMemState "https://acme.example/careers" =
      .ok emptyJobCollection :=
  ⟨rfl, c7_get_missing_is_empty_ok emptyMemState "https://acme.example/careers" rfl⟩

/-- Claim C9: `SaveJobCollection` is an unconditional overwrite keyed
by `sourceURL`: after a save the lookup of that URL returns exactly the
saved collection, and the entry of every other URL is unchanged. -/
theorem c9_save_overwrites_frame (s : MemState) (c : JobCollection) :
    saveJobCollection s c = .ok (memInsert s c) ∧
    getLatestJobCollection (memInsert s c) c.sourceURL = .ok c ∧
    ∀ url : String, url ≠ c.sourceURL → memInsert s c url = s url := by
  refine ⟨rfl, ?_, ?_⟩
  · simp [getLatestJobCollection, memInsert]
  · intro url h
    simp [memInsert, h]

theorem c9_save_overwrites_frame_witness :
    ("https://other.example" ≠ collW.sourceURL) ∧
    getLatestJobCollection (memInsert emptyMemState collW) collW.sourceURL = .ok collW ∧
    memInsert emptyMemState collW "https://other.example" =
      emptyMemState "https://other.example" :=
  ⟨by decide, (c9_save_overwrites_frame emptyMemState collW).2.1,
    (c9_save_overwrites_frame emptyMemState collW).2.2 "https://other.example" (by decide)⟩

/-- Claim C10: both memory-repository operations return a nil error on
every input and state, so when the orchestrator is composed with the
in-memory repository the branch of `processSingleURL` that handles a
failed `GetLatestJobCollection` is never entered. -/
theorem c10_mem_repo_total_branch_dead :
    (∀ (s : MemState) (c : JobCollection), saveJobCollection s c = .ok (memInsert s c)) ∧
    (∀ (s : MemState) (url : String), ∃ c, getLatestJobCollection s url = .ok c) ∧
    (∀ (scrape : String → Except String JobCollection)
        (notify : DiffResult → Except String Unit) (s : MemState) (url : String),
        getErrBranchTaken (mkMemPorts scrape notify) s url = false) := by
  refine ⟨fun s c => rfl, fun s url => ⟨_, getLatest_always_ok s url⟩,
    fun scrape notify s url => ?_⟩
  unfold getErrBranchTaken
  simp only [mkMemPorts, getLatest_always_ok]
  cases h : scrape url <;> rfl

/-- Claim C8: when the scraper fails for a source, the pass performs no
state mutation for it: the repository state is unchanged and the trace
contains no save and no notify call. -/
theorem c8_scrape_error_no_mutation {σ : Type} (P : Ports σ) (st : σ)
    (url : String) (e : String) (h : P.scrape url = .error e) :
    (processSingleURL P st url).2.1 = st ∧
    (∀ c : JobCollection, Event.save c ∉ (processSingleURL P st url).2.2) ∧
    (∀ d : DiffResult, Event.notify d ∉ (processSingleURL P st url).2.2) := by
  simp [processSingleURL, h]

/-- Ports whose scraper always fails, composed with the memory
repository. -/
def failPorts : Ports MemState :=
  mkMemPorts (fun _ => .error "boom") (fun _ => .ok ())

theorem c8_scrape_error_no_mutation_witness :
    failPorts.scrape "https://acme.example/careers" = .error "boom" ∧
    (processSingleURL failPorts emptyMemState "https://acme.example/careers").2.1 =
      emptyMemState ∧
    Event.save collW ∉
      (processSingleURL failPorts emptyMemState "https://acme.example/careers").2.2 := by
  refine ⟨rfl, ?_, ?_⟩
  · exact (c8_scrape_error_no_mutation failPorts emptyMemState
      "https://acme.example/careers" "boom" rfl).1
  · exact (c8_scrape_error_no_mutation failPorts emptyMemState
      "https://acme.example/careers" "boom" rfl).2.1 collW

/-- Ports for a first observation: the scraper finds one job, the
notifier succeeds, the repository is the in-memory one. -/
def firstObsPorts : Ports MemState :=
  mkMemPorts (fun _ => .ok collW) (fun _ => .ok ())

/-- The diff the service computes on a first observation: the stored
zero-value collection against the scraped one-job collection. -/
def firstObsDiff : DiffResult := compareScrapeResults emptyJobCollection collW

/-- Claim C1 fails on the code: on a first observation (empty
repository) the memory repository returns the zero-value collection
with a nil error, so `processSingleURL` takes the normal diff path,
classifies every scraped job as new, and DOES call the notifier before
saving.  The comment "If it's the first time or there was an error,
just save and don't notify" guards a branch the in-memory repository
never triggers. -/
theorem c1_first_observation_notifies :
    firstObsDiff.newJobs = [jobW] ∧
    (processSingleURL firstObsPorts emptyMemState "https://acme.example/careers").2.2 =
      [Event.scrape "https://acme.example/careers",
       Event.getLatest "https://acme.example/careers",
       Event.notify firstObsDiff,
       Event.save collW] ∧
    Event.notify firstObsDiff ∈
      (scrapeAndNotify firstObsPorts emptyMemState
        ["https://acme.example/careers"]).2.2 := by
  refine ⟨rfl, ?_, ?_⟩
  · simp [processSingleURL, firstObsPorts, mkMemPorts, getLatestJobCollection,
      emptyMemState, saveJobCollection, firstObsDiff]
    decide
  · decide

/-- Claim C5: with a prior snapshot present and a non-empty diff, a
notifier failure does not prevent the save; the trace still ends with
the save of the current snapshot, after the notify call. -/
theorem c5_save_after_notify_failure {σ : Type} (P : Ports σ) (st : σ)
    (url : String) (prev curr : JobCollection) (e : String)
    (hs : P.scrape url = .ok curr)
    (hg : P.getLatest st url = .ok prev)
    (hne : 0 < (compareScrapeResults prev curr).newJobs.length ∨
           0 < (compareScrapeResults prev curr).removedJobs.length ∨
           0 < (compareScrapeResults prev curr).updatedJobs.length)
    (hn : P.notify (compareScrapeResults prev curr) = .error e) :
    (processSingleURL P st url).2.2 =
      [Event.scrape url, Event.getLatest url,
       Event.notify (compareScrapeResults prev curr), Event.save curr] := by
  unfold processSingleURL
  rw [hs, hg]
  simp only [if_pos hne]
  cases hsv : P.save st curr <;> simp [hsv]

/-- Ports whose notifier always fails, over a trivial repository
state. -/
def notifyFailPorts : Ports Unit :=
  { scrape := fun _ => .ok collW, getLatest := fun _ _ => .ok collPrevW,
    save := fun s _ => .ok s, notify := fun _ => .error "webhook down" }

theorem c5_save_after_notify_failure_witness :
    notifyFailPorts.scrape "https://acme.example/careers" = .ok collW ∧
    (0 < (compareScrapeResults collPrevW collW).newJobs.length ∨
     0 < (compareScrapeResults collPrevW collW).removedJobs.length ∨
     0 < (compareScrapeResults collPrevW collW).updatedJobs.length) ∧
    (processSingleURL notifyFailPorts () "https://acme.example/careers").2.2 =
      [Event.scrape "https://acme.example/careers",
       Event.getLatest "https://acme.example/careers",
       Event.notify (compareScrapeResults collPrevW collW), Event.save collW] := by
  refine ⟨rfl, by decide, ?_⟩
  exact c5_save_after_notify_failure notifyFailPorts () "https://acme.example/careers"
    collPrevW collW "webhook down" rfl rfl (by decide) rfl

/-- Claim C6: `ScrapeAndNotify` always returns nil to its caller, and
every configured URL is attempted (its scrape call appears in the
trace) regardless of failures at other URLs. -/
theorem c6_run_once_ok_all_urls_attempted {σ : Type} (P : Ports σ) (st : σ)
    (urls : List String) :
    (scrapeAndNotify P st urls).1 = .ok () ∧
    ∀ u ∈ urls, Event.scrape u ∈ (scrapeAndNotify P st urls).2.2 := by
  constructor
  · rfl
  · induction urls generalizing st with
    | nil => intro u hu; cases hu
    | cons x rest ih =>
      intro u hu
      show Event.scrape u ∈
        (processSingleURL P st x).2.2 ++
          (runUrls P (processSingleURL P st x).2.1 rest).2
      rcases List.mem_cons.mp hu with rfl | h'
      · exact List.mem_append_left _ (scrape_mem_trace P st u)
      · exact List.mem_append_right _ (ih (processSingleURL P st x).2.1 u h')

theorem c6_run_once_ok_all_urls_attempted_witness :
    ("https://b.example" ∈ ["https://a.example", "https://b.example"]) ∧
    (scrapeAndNotify failPorts emptyMemState
      ["https://a.example", "https://b.example"]).1 = .ok () ∧
    Event.scrape "https://b.example" ∈
      (scrapeAndNotify failPorts emptyMemState
        ["https://a.example", "https://b.example"]).2.2 := by
  refine ⟨by decide, ?_, ?_⟩
  · exact (c6_run_once_ok_all_urls_attempted failPorts emptyMemState
      ["https://a.example", "https://b.example"]).1
  · exact (c6_run_once_ok_all_urls_attempted failPorts emptyMemState
      ["https://a.example", "https://b.example"]).2 "https://b.example" (by decide)

/-- Membership in the new-jobs list, by id: the id occurs in the
current snapshot and is absent from the previous map. -/
theorem mem_newJobs_ids {prev curr : JobCollection} {k : String} :
    k ∈ (compareScrapeResults prev curr).newJobs.map Job.id ↔
      (∃ j ∈ curr.jobs, j.id = k) ∧ buildJobMap prev.jobs k = none := by
  simp only [compareScrapeResults, List.mem_map, List.mem_filter]
  constructor
  · rintro ⟨j, ⟨hj, hnone⟩, rfl⟩
    exact ⟨⟨j, hj, rfl⟩, Option.isNone_iff_eq_none.mp hnone⟩
  · rintro ⟨⟨j, hj, rfl⟩, hnone⟩
    exact ⟨j, ⟨hj, by simp [hnone]⟩, rfl⟩

/-- The updated-jobs filter predicate holds exactly when the previous
map yields a stored job with a changed tracked field. -/
theorem updPred_true {prevJobs : List Job} {j : Job} :
    ((match buildJobMap prevJobs j.id with
      | none => false
      | some p => jobChanged j p) = true) ↔
      ∃ p, buildJobMap prevJobs j.id = some p ∧ jobChanged j p = true := by
  cases h : buildJobMap prevJobs j.id <;> simp [h]

/-- Membership in the updated-jobs list, by id. -/
theorem mem_updatedJobs_ids {prev curr : JobCollection} {k : String} :
    k ∈ (compareScrapeResults prev curr).updatedJobs.map Job.id ↔
      ∃ j ∈ curr.jobs, j.id = k ∧
        ∃ p, buildJobMap prev.jobs k = some p ∧ jobChanged j p = true := by
  simp only [compareScrapeResults, List.mem_map, List.mem_filter]
  constructor
  · rintro ⟨j, ⟨hj, hpred⟩, rfl⟩
    rcases updPred_true.mp hpred with ⟨p, hp, hch⟩
    exact ⟨j, hj, rfl, p, hp, hch⟩
  · rintro ⟨j, hj, rfl, p, hp, hch⟩
    exact ⟨j, ⟨hj, updPred_true.mpr ⟨p, hp, hch⟩⟩, rfl⟩

/-- Membership in the removed-jobs list, by id. -/
theorem mem_removedJobs_ids {prev curr : JobCollection} {k : String} :
    k ∈ (compareScrapeResults prev curr).removedJobs.map Job.id ↔
      (∃ p ∈ prev.jobs, p.id = k) ∧ buildJobMap curr.jobs k = none := by
  simp only [compareScrapeResults, List.mem_map, List.mem_filter]
  constructor
  · rintro ⟨p, ⟨hp, hnone⟩, rfl⟩
    exact ⟨⟨p, hp, rfl⟩, Option.isNone_iff_eq_none.mp hnone⟩
  · rintro ⟨⟨p, hp, rfl⟩, hnone⟩
    exact ⟨p, ⟨hp, by simp [hnone]⟩, rfl⟩

/-- The previous map misses a key exactly when the key occurs in no
job of the list. -/
theorem buildJobMap_ne_none {jobs : List Job} {k : String} :
    buildJobMap jobs k ≠ none ↔ k ∈ jobs.map Job.id := by
  rw [Ne, buildJobMap_eq_none]
  push_neg
  simp only [List.mem_map]

/-- An id occurring in the current snapshot is never in the
removed-jobs list. -/
theorem curr_id_not_removed {prev curr : JobCollection} {k : String}
    (hk : k ∈ curr.jobs.map Job.id) :
    k ∉ (compareScrapeResults prev curr).removedJobs.map Job.id := by
  intro hrem
  exact buildJobMap_ne_none.mpr hk (mem_removedJobs_ids.mp hrem).2

/-- Claim C2 (amended with pairwise-distinct ids in the previous
snapshot): every id of the current snapshot falls in exactly one of
the categories new, updated, unchanged; every id of the previous
snapshot absent from the current one appears in the removed list
exactly once; and the three result lists are pairwise disjoint by id. -/
theorem c2_partition_nodup (prev curr : JobCollection)
    (hp : (prev.jobs.map Job.id).Nodup) :
    (∀ k, k ∈ curr.jobs.map Job.id →
      (k ∈ (compareScrapeResults prev curr).newJobs.map Job.id ∧
        k ∉ (compareScrapeResults prev curr).updatedJobs.map Job.id ∧
        k ∉ (compareScrapeResults prev curr).removedJobs.map Job.id) ∨
      (k ∉ (compareScrapeResults prev curr).newJobs.map Job.id ∧
        k ∈ (compareScrapeResults prev curr).updatedJobs.map Job.id ∧
        k ∉ (compareScrapeResults prev curr).removedJobs.map Job.id) ∨
      (k ∉ (compareScrapeResults prev curr).newJobs.map Job.id ∧
        k ∉ (compareScrapeResults prev curr).updatedJobs.map Job.id ∧
        k ∉ (compareScrapeResults prev curr).removedJobs.map Job.id)) ∧
    (∀ k, k ∈ prev.jobs.map Job.id → k ∉ curr.jobs.map Job.id →
      ((compareScrapeResults prev curr).removedJobs.map Job.id).count k = 1) ∧
    (∀ k, ¬(k ∈ (compareScrapeResults prev curr).newJobs.map Job.id ∧
            k ∈ (compareScrapeResults prev curr).updatedJobs.map Job.id)) ∧
    (∀ k, ¬(k ∈ (compareScrapeResults prev curr).newJobs.map Job.id ∧
            k ∈ (compareScrapeResults prev curr).removedJobs.map Job.id)) ∧
    (∀ k, ¬(k ∈ (compareScrapeResults prev curr).updatedJobs.map Job.id ∧
            k ∈ (compareScrapeResults prev curr).removedJobs.map Job.id)) := by
  have hnewcurr : ∀ k, k ∈ (compareScrapeResults prev curr).newJobs.map Job.id →
      k ∈ curr.jobs.map Job.id := by
    intro k hk
    rcases (mem_newJobs_ids.mp hk).1 with ⟨j, hj, rfl⟩
    exact List.mem_map_of_mem Job.id hj
  have hupdcurr : ∀ k, k ∈ (compareScrapeResults prev curr).updatedJobs.map Job.id →
      k ∈ curr.jobs.map Job.id := by
    intro k hk
    rcases mem_updatedJobs_ids.mp hk with ⟨j, hj, rfl, _⟩
    exact List.mem_map_of_mem Job.id hj
  refine ⟨?_, ?_, ?_, ?_, ?_⟩
  · intro k hk
    have hkr : k ∉ (compareScrapeResults prev curr).removedJobs.map Job.id :=
      curr_id_not_removed hk
    cases hmap : buildJobMap prev.jobs k with
    | none =>
      refine Or.inl ⟨?_, ?_, hkr⟩
      · rcases List.mem_map.mp hk with ⟨j, hj, rfl⟩
        exact mem_newJobs_ids.mpr ⟨⟨j, hj, rfl⟩, hmap⟩
      · intro hupd
        rcases mem_updatedJobs_ids.mp hupd with ⟨j, _, rfl, p, hp', _⟩
        rw [hmap] at hp'
        cases hp'
    | some p =>
      have hknew : k ∉ (compareScrapeResults prev curr).newJobs.map Job.id := by
        intro hnew
        rw [(mem_newJobs_ids.mp hnew).2] at hmap
        cases hmap
      by_cases hupd : k ∈ (compareScrapeResults prev curr).updatedJobs.map Job.id
      · exact Or.inr (Or.inl ⟨hknew, hupd, hkr⟩)
      · exact Or.inr (Or.inr ⟨hknew, hupd, hkr⟩)
  · intro k hkp hkc
    have hnd : ((compareScrapeResults prev curr).removedJobs.map Job.id).Nodup := by
      show ((prev.jobs.filter _).map Job.id).Nodup
      exact ((List.filter_sublist prev.jobs).map Job.id).nodup hp
    have hknone : buildJobMap curr.jobs k = none := by
      rw [buildJobMap_eq_none]
      intro j hj hjk
      exact hkc (hjk ▸ List.mem_map_of_mem Job.id hj)
    have hkmem : k ∈ (compareScrapeResults prev curr).removedJobs.map Job.id := by
      rcases List.mem_map.mp hkp with ⟨p, hp', rfl⟩
      exact mem_removedJobs_ids.mpr ⟨⟨p, hp', rfl⟩, hknone⟩
    exact List.count_eq_one_of_mem hnd hkmem
  · rintro k ⟨hnew, hupd⟩
    rcases mem_updatedJobs_ids.mp hupd with ⟨j, _, rfl, p, hp', _⟩
    rw [(mem_newJobs_ids.mp hnew).2] at hp'
    cases hp'
  · rintro k ⟨hnew, hrem⟩
    exact curr_id_not_removed (hnewcurr k hnew) hrem
  · rintro k ⟨hupd, hrem⟩
    exact curr_id_not_removed (hupdcurr k hupd) hrem

theorem c2_partition_nodup_witness :
    ((collW.jobs.map Job.id).Nodup) ∧
    ("j1" ∈ collW.jobs.map Job.id) ∧ ("j1" ∉ collPrevW.jobs.map Job.id) ∧
    ((compareScrapeResults collW collPrevW).removedJobs.map Job.id).count "j1" = 1 :=
  ⟨by decide, by decide, by decide,
    (c2_partition_nodup collW collPrevW (by decide)).2.1 "j1" (by decide) (by decide)⟩

/-- A job listing used to build snapshots with a duplicated id. -/
def jobDupA : Job :=
  { id := "a", title := "T1", description := "D", location := "L",
    department := "Eng", url := "u", postedDate := 0, scrapedAt := 0 }

/-- Same id as `jobDupA`, different title. -/
def jobDupB : Job := { jobDupA with title := "T2" }

/-- A snapshot containing the same id twice. -/
def collDup : JobCollection :=
  { companyName := "Acme", sourceURL := "s", scrapedAt := 0,
    jobs := [jobDupA, jobDupB], rawContent := "" }

/-- An empty snapshot for the same source. -/
def collEmptyS : JobCollection := { collDup with jobs := [] }

/-- Claim C2 as stated is false: when the previous snapshot repeats a
job id, that id lands in the removed list once per occurrence, not
exactly once. -/
theorem c2_counterexample_dup_removed_twice :
    ("a" ∈ collDup.jobs.map Job.id) ∧ ("a" ∉ collEmptyS.jobs.map Job.id) ∧
    ((compareScrapeResults collDup collEmptyS).removedJobs.map Job.id).count "a" = 2 := by
  refine ⟨by decide, by decide, by decide⟩

/-- Claim C3 as stated is false: a snapshot repeating an id with
different tracked content is not a fixed point of the diff — the Go
map keeps the last occurrence, so the first occurrence shows up as
updated against itself. -/
theorem c3_counterexample_dup_self_diff :
    (compareScrapeResults collDup collDup).updatedJobs = [jobDupA] ∧
    (compareScrapeResults collDup collDup).updatedJobs ≠ [] := by
  refine ⟨by decide, by decide⟩

/-- Tracked-content inequality spelled out on the four compared
fields. -/
theorem jobChanged_iff {a b : Job} :
    jobChanged a b = true ↔
      (a.title ≠ b.title ∨ a.description ≠ b.description ∨
       a.location ≠ b.location ∨ a.department ≠ b.department) := by
  simp only [jobChanged, Bool.or_eq_true, bne_iff_ne]
  tauto

/-- Claim C3 (amended with pairwise-distinct ids): comparing a
snapshot against itself yields empty new, updated and removed lists. -/
theorem c3_compare_self_empty (S : JobCollection)
    (h : (S.jobs.map Job.id).Nodup) :
    (compareScrapeResults S S).newJobs = [] ∧
    (compareScrapeResults S S).updatedJobs = [] ∧
    (compareScrapeResults S S).removedJobs = [] := by
  refine ⟨?_, ?_, ?_⟩
  · simp only [compareScrapeResults]
    rw [List.filter_eq_nil_iff]
    intro j hj hnone
    exact (buildJobMap_eq_none _ _).mp
      (Option.isNone_iff_eq_none.mp hnone) j hj rfl
  · simp only [compareScrapeResults]
    rw [List.filter_eq_nil_iff]
    intro j hj hpred
    rcases updPred_true.mp hpred with ⟨p, hp', hch⟩
    rw [buildJobMap_self h hj] at hp'
    cases hp'
    simp [jobChanged] at hch
  · simp only [compareScrapeResults]
    rw [List.filter_eq_nil_iff]
    intro j hj hnone
    exact (buildJobMap_eq_none _ _).mp
      (Option.isNone_iff_eq_none.mp hnone) j hj rfl

theorem c3_compare_self_empty_witness :
    ((collW.jobs.map Job.id).Nodup) ∧
    (compareScrapeResults collW collW).newJobs = [] ∧
    (compareScrapeResults collW collW).updatedJobs = [] ∧
    (compareScrapeResults collW collW).removedJobs = [] :=
  ⟨by decide, (c3_compare_self_empty collW (by decide)).1,
    (c3_compare_self_empty collW (by decide)).2.1,
    (c3_compare_self_empty collW (by decide)).2.2⟩

/-- Claim C4: a job whose id is present in both snapshots (ids unique
in the previous one) is classified updated exactly when one of the
four tracked fields title, description, location, department differs;
it is never classified new, and its id never appears among the removed
jobs — so a change confined to `url` or `postedDate` leaves it
unchanged, and a title-only change puts it in the updated list. -/
theorem c4_tracked_fields (prev curr : JobCollection)
    (hp : (prev.jobs.map Job.id).Nodup)
    (jp jc : Job) (hjp : jp ∈ prev.jobs) (hjc : jc ∈ curr.jobs)
    (hid : jc.id = jp.id) :
    (jc ∈ (compareScrapeResults prev curr).updatedJobs ↔
      (jc.title ≠ jp.title ∨ jc.description ≠ jp.description ∨
       jc.location ≠ jp.location ∨ jc.department ≠ jp.department)) ∧
    jc ∉ (compareScrapeResults prev curr).newJobs ∧
    (∀ r ∈ (compareScrapeResults prev curr).removedJobs, r.id ≠ jc.id) := by
  have hmap : buildJobMap prev.jobs jc.id = some jp := by
    rw [hid]
    exact buildJobMap_self hp hjp
  refine ⟨?_, ?_, ?_⟩
  · simp only [compareScrapeResults, List.mem_filter]
    constructor
    · rintro ⟨_, hpred⟩
      rcases updPred_true.mp hpred with ⟨p, hp', hch⟩
      rw [hmap] at hp'
      cases hp'
      exact jobChanged_iff.mp hch
    · intro hdiff
      exact ⟨hjc, updPred_true.mpr ⟨jp, hmap, jobChanged_iff.mpr hdiff⟩⟩
  · simp only [compareScrapeResults, List.mem_filter]
    rintro ⟨_, hpred⟩
    rw [hmap] at hpred
    cases hpred
  · intro r hr hrid
    simp only [compareScrapeResults, List.mem_filter] at hr
    have hnone : buildJobMap curr.jobs r.id = none :=
      Option.isNone_iff_eq_none.mp hr.2
    rw [hrid] at hnone
    exact (buildJobMap_eq_none _ _).mp hnone jc hjc rfl

/-- The witness job: `jobW` with only its title changed. -/
def jobWRetitled : Job := { jobW with title := "Senior Engineer" }

/-- The witness snapshot holding the retitled job. -/
def collWRetitled : JobCollection := { collW with jobs := [jobWRetitled], scrapedAt := 2 }

theorem c4_tracked_fields_witness :
    ((collW.jobs.map Job.id).Nodup) ∧ jobWRetitled.id = jobW.id ∧
    jobWRetitled ∈ (compareScrapeResults collW collWRetitled).updatedJobs :=
  ⟨by decide, rfl,
    ((c4_tracked_fields collW collWRetitled (by decide) jobW jobWRetitled
      (by decide) (by decide) rfl).1).mpr (Or.inl (by decide))⟩
